import Mathlib

/-!
Verification development for the `regression` repository
(`src/regression.cc`, canonical full revision).

The program computes an ordinary least-squares linear regression over a list
of two-dimensional points.  The numerical kernel (`getSums`, `getMean`,
`getBestFit`, `getLeastSquares`) is embedded generically over a type `α`
carrying the raw arithmetic operations used by the C code (`+`, `-`, `*`,
`/`, and the `size_t → double` conversion).  Three carriers instantiate
it: `ℚ` gives the exact-arithmetic reading of the `double` computations;
`EDouble` (rationals extended with `inf`, `neginf` and `nan`) adds the
IEEE-754 special values produced by division by zero, still with exact
finite arithmetic; and `Dy` (dyadic rationals with correctly rounded
operations) models genuine binary64 round-to-nearest-even arithmetic, and
is used to exhibit behaviours of the program that the exact readings
miss.

The file-input scanner `parseFile` and the command-line driver `main` are
embedded as explicit state-passing functions over the byte stream
(`List Char`) and the argument vector.
-/

set_option autoImplicit false
set_option maxRecDepth 8000

/-- Model of the C struct `hedger::DataPoint` (`double x; double y;`). -/
structure DataPoint (α : Type) where
  x : α
  y : α
deriving DecidableEq, Repr

/-- Loop body of `getSums`: starting from the accumulator values
`x, y, xx, xy`, add `data[i].x`, `data[i].y`, `data[i].x * data[i].x` and
`data[i].x * data[i].y` for each point, left to right. -/
def getSumsAux {α : Type} [Add α] [Mul α] :
    List (DataPoint α) → α → α → α → α → α × α × α × α
  | [], x, y, xx, xy => (x, y, xx, xy)
  | p :: rest, x, y, xx, xy =>
      getSumsAux rest (x + p.x) (y + p.y) (xx + p.x * p.x) (xy + p.x * p.y)

/-- Model of `getSums`: all four accumulators are initialised to `0.0` and
filled by a single linear pass (`*x += data[i].x; *y += data[i].y;
*xSquared += data[i].x * data[i].x; *xy += data[i].x * data[i].y`).
Returns `(Σx, Σy, Σx², Σxy)`. -/
def getSums {α : Type} [Add α] [Mul α] [OfNat α 0] (data : List (DataPoint α)) :
    α × α × α × α :=
  getSumsAux data 0 0 0 0

/-- Loop body of `getMean`: `sum += data[i].x`. -/
def getMeanAux {α : Type} [Add α] : List (DataPoint α) → α → α
  | [], s => s
  | p :: rest, s => getMeanAux rest (s + p.x)

/-- Model of `getMean`: sums the x coordinates then divides by `size`
(`sum /= size; return sum;`). -/
def getMean {α : Type} [Add α] [Div α] [NatCast α] [OfNat α 0]
    (data : List (DataPoint α)) : α :=
  getMeanAux data 0 / (data.length : α)

/-- Model of `getBestFit` (the `size` argument is the list length):

`*m = size * (sigmaXY) - (sigmaX * sigmaY);`
`*m /= (size * sigmaXSquared) - sigmaX * sigmaX;`
`*b = sigmaY - *m * sigmaX;`
`*b /= size;`

returns the pair `(b, m)` in the order of the two out-parameters. -/
def getBestFit {α : Type} [Add α] [Sub α] [Mul α] [Div α] [NatCast α] [OfNat α 0]
    (data : List (DataPoint α)) : α × α :=
  let s := getSums data
  let sigmaX := s.1
  let sigmaY := s.2.1
  let sigmaXSquared := s.2.2.1
  let sigmaXY := s.2.2.2
  let m := ((data.length : α) * sigmaXY - sigmaX * sigmaY) /
    ((data.length : α) * sigmaXSquared - sigmaX * sigmaX)
  let b := (sigmaY - m * sigmaX) / (data.length : α)
  (b, m)

/-- Model of `getLeastSquares`:

`*a = (sigmaY * sigmaXSquared) - (sigmaX * sigmaXY);`
`*a /= (size * sigmaXSquared) - (sigmaX * sigmaX);`
`*b = (size * sigmaXY) - (sigmaX * sigmaY);`
`*b /= (size * sigmaXSquared) - (sigmaX * sigmaX);`

returns the pair `(a, b)`. -/
def getLeastSquares {α : Type} [Add α] [Sub α] [Mul α] [Div α] [NatCast α] [OfNat α 0]
    (data : List (DataPoint α)) : α × α :=
  let s := getSums data
  let sigmaX := s.1
  let sigmaY := s.2.1
  let sigmaXSquared := s.2.2.1
  let sigmaXY := s.2.2.2
  let a := (sigmaY * sigmaXSquared - sigmaX * sigmaXY) /
    ((data.length : α) * sigmaXSquared - sigmaX * sigmaX)
  let b := ((data.length : α) * sigmaXY - sigmaX * sigmaY) /
    ((data.length : α) * sigmaXSquared - sigmaX * sigmaX)
  (a, b)

/-- Second definition, written from the spec's words (spec §4.2,
slope-intercept form): `m = (N·Σxy − Σx·Σy) / (N·Σx² − (Σx)²)` and
`b = (Σy − m·Σx) / N`, computed from the sums of `getSums`, in that order
(`m` first, then `b` using that `m`); returns `(b, m)`. -/
def specBestFit {α : Type} [Add α] [Sub α] [Mul α] [Div α] [NatCast α] [OfNat α 0]
    (data : List (DataPoint α)) : α × α :=
  let sums := getSums data
  let n : α := (data.length : α)
  let m : α := (n * sums.2.2.2 - sums.1 * sums.2.1) / (n * sums.2.2.1 - sums.1 * sums.1)
  let b : α := (sums.2.1 - m * sums.1) / n
  (b, m)

/-- Denominator shared by both solver formulations:
`(size * sigmaXSquared) - (sigmaX * sigmaX)` as computed from `getSums`. -/
def fitDenom {α : Type} [Add α] [Sub α] [Mul α] [NatCast α] [OfNat α 0]
    (data : List (DataPoint α)) : α :=
  let s := getSums data
  (data.length : α) * s.2.2.1 - s.1 * s.1

/-- Quantity `N·Σt² − (Σt)²` for a list of rationals; this is the solver
denominator applied to the list of x coordinates. -/
def Dq (l : List ℚ) : ℚ :=
  (l.length : ℚ) * (l.map (fun t => t * t)).sum - l.sum * l.sum

/-- Character classification of the scanner:
`isdigit(c) || '.' == c || '-' == c`. -/
def isDigitClass (c : Char) : Bool :=
  c.isDigit || c == '.' || c == '-'

/-- Value of a list of ASCII digits read as a decimal natural number. -/
def digitsToNat (ds : List Char) : ℕ :=
  ds.foldl (fun a c => a * 10 + (c.toNat - 48)) 0

/-- Model of `sscanf(accum, "%lf", &d)` on the strings the program can
produce: an optional leading `-`, a run of digits, an optional `.` followed
by a run of digits; at least one digit is required for a successful
conversion, and any trailing characters after the longest valid prefix are
ignored (so `3-4` converts to `3`).  Returns `none` on a matching failure,
in which case the C call leaves `d` unchanged.  (The `%lf` features that
cannot occur here — leading whitespace, `+`, exponents, hex, `inf`/`nan` —
are omitted, since the accumulator only ever holds digits, `.` and `-`,
and the command-line arguments used in the claims are plain numerals.) -/
def parseDouble (cs : List Char) : Option ℚ :=
  let neg : Bool := match cs with
    | c :: _ => c == '-'
    | [] => false
  let cs1 : List Char := match cs with
    | c :: r => if c == '-' then r else cs
    | [] => cs
  let ip := cs1.takeWhile Char.isDigit
  let cs2 := cs1.dropWhile Char.isDigit
  let fp : List Char := match cs2 with
    | c :: r => if c == '.' then r.takeWhile Char.isDigit else []
    | [] => []
  if ip.length + fp.length = 0 then none
  else
    let mag : ℚ := (digitsToNat ip : ℚ) + (digitsToNat fp : ℚ) / (10 : ℚ) ^ fp.length
    some (if neg then -mag else mag)

/-- State of the `parseFile` scan loop: the `vector<double> x, y`, the
`tuples` counter, the `xy` toggle, the token accumulator (`accum` together
with `aidx = accum.length`), the persistent `double d` (initialised `0.0`
and only overwritten by a successful `sscanf`), and the trace of buffer
indices written by `accum[aidx++] = c` and `accum[aidx] = '\0'`. -/
structure ScanState where
  xs : List ℚ
  ys : List ℚ
  tuples : ℕ
  xy : Bool
  accum : List Char
  d : ℚ
  writes : List ℕ
deriving DecidableEq, Repr

/-- Initial scanner state at the top of `parseFile`. -/
def initState : ScanState :=
  ⟨[], [], 0, false, [], 0, []⟩

/-- One iteration of the `while ((c = fgetc(f)) != EOF)` body.  A
digit-class character is appended to the accumulator after the overflow
check `if (aidx > MAX_DIGITS) return NULL;` (with `MAX_DIGITS = 256`);
`none` models that `NULL` return.  Any other character stores the `'\0'`
terminator, resets `aidx`, re-parses the accumulator into `d` (on failure
`d` is left unchanged), pushes `d` onto `y`/`x` according to the `xy`
toggle (incrementing `tuples` on a `y` push) and flips the toggle. -/
def scanStep (s : ScanState) (c : Char) : Option ScanState :=
  if isDigitClass c then
    if s.accum.length > 256 then none
    else some { s with
      accum := s.accum ++ [c],
      writes := s.writes ++ [s.accum.length] }
  else
    let d' := (parseDouble s.accum).getD s.d
    let s' : ScanState := { s with
      writes := s.writes ++ [s.accum.length],
      accum := [],
      d := d' }
    some (if s.xy then
      { s' with ys := s.ys ++ [d'], tuples := s.tuples + 1, xy := false }
    else
      { s' with xs := s.xs ++ [d'], xy := true })

/-- Runs the scan loop over a list of input characters. -/
def scanList (s : ScanState) : List Char → Option ScanState
  | [] => some s
  | c :: cs =>
      match scanStep s c with
      | none => none
      | some s' => scanList s' cs

/-- Full scan of a byte stream starting from the initial state. -/
def scanRun (input : List Char) : Option ScanState :=
  scanList initState input

/-- Model of the array construction after the loop:
`data = new DataPoint[tuples]; for (i = 0; i < tuples; i++) data[i] = (x[i], y[i])`.
The `getD` default is never consulted for reachable states, where
`tuples = ys.length ≤ xs.length`. -/
def buildPairs (s : ScanState) : List (DataPoint ℚ) :=
  (List.range s.tuples).map (fun i => ⟨s.xs.getD i 0, s.ys.getD i 0⟩)

/-- Model of `parseFile` on the contents of a readable file: `none` is the
`NULL` return from the token-overflow abort, otherwise the constructed
point array. -/
def parseFile (input : List Char) : Option (List (DataPoint ℚ)) :=
  (scanRun input).map buildPairs

/-- Buffer-write trace of a completed scan (empty for an input that was
aborted, whose prefix trace is not needed by any claim). -/
def scanWrites (input : List Char) : List ℕ :=
  match scanRun input with
  | some s => s.writes
  | none => []

/-- Book-keeping invariant of the scan loop: `tuples` counts the `y`
pushes, and the `x` vector is exactly one longer than the `y` vector while
`xy` is set, of equal length while it is clear. -/
def ScanInv (s : ScanState) : Prop :=
  s.tuples = s.ys.length ∧
    s.xs.length = s.ys.length + (if s.xy then 1 else 0)

/-- Exact-arithmetic model of the IEEE-754 `double` values: exact
rationals for the finite values plus the special values `inf`, `neginf`
and `nan`.  Finite arithmetic is idealised as exact — no rounding, no
overflow, no signed zero — so this carrier captures only the special-value
propagation and the IEEE division-by-zero rules; a statement proved over
it transfers to the program exactly when every finite intermediate result
is exactly representable (as in the small-integer example `(5,1),(5,2)`).
Rounding itself is modelled separately by the `Dy` carrier below, which is
what exposes the failures recorded in the C2 and C9 counterexamples. -/
inductive EDouble : Type where
  | fin : ℚ → EDouble
  | inf : EDouble
  | neginf : EDouble
  | nan : EDouble
deriving DecidableEq, Repr

/-- IEEE addition on the extended values (finite part exact). -/
def EDouble.add : EDouble → EDouble → EDouble
  | .fin a, .fin b => .fin (a + b)
  | .fin _, .inf => .inf
  | .fin _, .neginf => .neginf
  | .inf, .fin _ => .inf
  | .inf, .inf => .inf
  | .inf, .neginf => .nan
  | .neginf, .fin _ => .neginf
  | .neginf, .inf => .nan
  | .neginf, .neginf => .neginf
  | .nan, _ => .nan
  | _, .nan => .nan

/-- IEEE subtraction on the extended values (finite part exact). -/
def EDouble.sub : EDouble → EDouble → EDouble
  | .fin a, .fin b => .fin (a - b)
  | .fin _, .inf => .neginf
  | .fin _, .neginf => .inf
  | .inf, .fin _ => .inf
  | .inf, .inf => .nan
  | .inf, .neginf => .inf
  | .neginf, .fin _ => .neginf
  | .neginf, .inf => .neginf
  | .neginf, .neginf => .nan
  | .nan, _ => .nan
  | _, .nan => .nan

/-- IEEE multiplication on the extended values (finite part exact;
`0 * ±inf = nan`). -/
def EDouble.mul : EDouble → EDouble → EDouble
  | .fin a, .fin b => .fin (a * b)
  | .fin a, .inf => if 0 < a then .inf else if a < 0 then .neginf else .nan
  | .fin a, .neginf => if 0 < a then .neginf else if a < 0 then .inf else .nan
  | .inf, .fin b => if 0 < b then .inf else if b < 0 then .neginf else .nan
  | .inf, .inf => .inf
  | .inf, .neginf => .neginf
  | .neginf, .fin b => if 0 < b then .neginf else if b < 0 then .inf else .nan
  | .neginf, .inf => .neginf
  | .neginf, .neginf => .inf
  | .nan, _ => .nan
  | _, .nan => .nan

/-- IEEE division on the extended values (finite part exact; without a
signed zero, a zero divisor or dividend counts as `+0`): `x/0` is `±inf`
by the sign of `x` and `0/0` is `nan`; `x/±inf` is `0`; `±inf/finite`
keeps the sign rules and `±inf/±inf` is `nan`. -/
def EDouble.div : EDouble → EDouble → EDouble
  | .fin a, .fin b =>
      if b = 0 then (if 0 < a then .inf else if a < 0 then .neginf else .nan)
      else .fin (a / b)
  | .fin _, .inf => .fin 0
  | .fin _, .neginf => .fin 0
  | .inf, .fin b => if 0 ≤ b then .inf else .neginf
  | .inf, .inf => .nan
  | .inf, .neginf => .nan
  | .neginf, .fin b => if 0 ≤ b then .neginf else .inf
  | .neginf, .inf => .nan
  | .neginf, .neginf => .nan
  | .nan, _ => .nan
  | _, .nan => .nan

instance : Add EDouble := ⟨EDouble.add⟩

instance : Sub EDouble := ⟨EDouble.sub⟩

instance : Mul EDouble := ⟨EDouble.mul⟩

instance : Div EDouble := ⟨EDouble.div⟩

instance : NatCast EDouble := ⟨fun n => .fin n⟩

instance : OfNat EDouble 0 := ⟨.fin 0⟩

/-- Pointwise injection of an exact point into the extended-double model. -/
def injP (p : DataPoint ℚ) : DataPoint EDouble :=
  ⟨.fin p.x, .fin p.y⟩

/-- Observable outcome of `main`: `usage` is the `printUsage(); return 1;`
path, `fileError` the `return -1` path after a failed `parseFile`, and
`ok b m xbar` the normal path printing `b`, `m` and the fitted value at
`x̄` before `return 0` (the printing itself is not modelled). -/
inductive MainResult : Type where
  | usage : MainResult
  | fileError : MainResult
  | ok : ℚ → ℚ → ℚ → MainResult
deriving DecidableEq, Repr

/-- Model of the command-line fallback loop
`for (i = 0; i < data_size; i++) { sscanf(argv[1+i*2]...); sscanf(argv[1+i*2+1]...); }`
with `data_size = (argc - 1) / 2`: the arguments are consumed two at a
time, and a failed `sscanf` leaves the previous contents of `v` (threaded
as the first parameter, `v0` standing for its initial indeterminate
value). -/
def cliData (v : ℚ) : List (List Char) → List (DataPoint ℚ)
  | a :: b :: rest =>
      let vx := (parseDouble a).getD v
      let vy := (parseDouble b).getD vx
      ⟨vx, vy⟩ :: cliData vy rest
  | _ => []

/-- Code after the argument-dispatch block of `main`: if no data was
produced by file parsing, the command-line pairs are read; then
`getBestFit` and `getMean` run and the program returns 0. -/
def mainCont (v0 : ℚ) (args : List (List Char)) (data : Option (List (DataPoint ℚ))) :
    MainResult :=
  let d : List (DataPoint ℚ) :=
    match data with
    | some d => d
    | none => cliData v0 args
  let bm := getBestFit d
  .ok bm.1 bm.2 (getMean d)

/-- Model of `main`.  `args` is `argv[1..]` (so `argc = args.length + 1`);
`fileContent` is the content of the file named by `argv[2]` when it can be
opened (`none` models an unreadable file); `v0` models the indeterminate
initial value of the uninitialised `double v`.  Follows the source: the
usage message with exit status 1 is produced only when `argc < 5` and
`argc ≤ 2`; with `argc ∈ ⟨3,4⟩` and `argv[1]` equal to `-f` or `-xf` the
file is parsed (swapping x and y afterwards for `-xf`), a `NULL` result
giving exit status -1; in every other case the points are read from the
command line. -/
def mainModel (v0 : ℚ) (fileContent : Option (List Char)) (args : List (List Char)) :
    MainResult :=
  let argc := args.length + 1
  if argc < 5 then
    if argc > 2 then
      if args.headD [] = "-f".toList ∨ args.headD [] = "-xf".toList then
        match fileContent.bind parseFile with
        | none => .fileError
        | some data0 =>
            mainCont v0 args (some
              (if args.headD [] = "-xf".toList then
                data0.map (fun p => ⟨p.y, p.x⟩) else data0))
      else mainCont v0 args none
    else .usage
  else mainCont v0 args none

/-- Byte stream `43,99\n21,65\n25,79` of the C4 scanner example. -/
def c4Input : List Char :=
  ['4', '3', ',', '9', '9', '\n', '2', '1', ',', '6', '5', '\n', '2', '5', ',', '7', '9']

/-- Predicate: an extended double is one of the IEEE special values
produced by division by zero (`NaN` or `±Infinity`). -/
def isSpecial (d : EDouble) : Prop :=
  d = EDouble.nan ∨ d = EDouble.inf ∨ d = EDouble.neginf

/-- Dyadic rational `m · 2^e`: the form of every finite IEEE-754 binary64
value.  This is the carrier of the rounding model of `double` arithmetic:
each operation computes the exact result and then applies binary64
round-to-nearest, ties-to-even, keeping the canonical 53-bit significand
(`2^52 ≤ |m| < 2^53`, or exactly 0).  The exponent is unbounded, so
overflow to infinity and subnormal underflow are not modelled; the
evaluations below stay far inside the normal range where this model
coincides with binary64. -/
structure Dy where
  m : ℤ
  e : ℤ
deriving DecidableEq, Repr

/-- Normalisation-and-round loop of binary64 rounding: scales the positive
fraction `a/b` (value `(a/b)·2^e`) into `[2^52, 2^53)` by doublings of `a`
or of `b`, then rounds the quotient to the nearest integer with ties to
even — exactly IEEE round-to-nearest-even on the 53-bit significand.  The
fuel only bounds the scaling steps and far exceeds any exponent reachable
in this file (a step either doubles `a` or doubles `b`). -/
def roundDyAux : ℕ → ℤ → ℤ → ℤ → ℤ × ℤ
  | 0, a, b, e => (a / b, e)
  | fuel + 1, a, b, e =>
      if a < 4503599627370496 * b then roundDyAux fuel (a * 2) b (e - 1)
      else if 9007199254740992 * b ≤ a then roundDyAux fuel a (b * 2) (e + 1)
      else
        let q := a / b
        let r := a % b
        (if b < 2 * r then q + 1
         else if 2 * r < b then q
         else if q % 2 = 0 then q else q + 1, e)

/-- Correctly rounded binary64 value of `(a/b)·2^e` for `b > 0` (the sign
is carried by `a`); an exact zero maps to `0`.  The sign of a zero is not
tracked (IEEE `−0` and `+0` coincide here), which none of the evaluations
below observe. -/
def dyRound (a b : ℤ) (e : ℤ) : Dy :=
  if a = 0 then ⟨0, 0⟩
  else if a < 0 then
    let p := roundDyAux 5000 (-a) b e
    ⟨-p.1, p.2⟩
  else
    let p := roundDyAux 5000 a b e
    ⟨p.1, p.2⟩

/-- IEEE binary64 addition: exact dyadic sum, then one correct rounding. -/
def Dy.add (x y : Dy) : Dy :=
  let e := min x.e y.e
  dyRound (x.m * 2 ^ (x.e - e).toNat + y.m * 2 ^ (y.e - e).toNat) 1 e

/-- IEEE binary64 subtraction: exact dyadic difference, then one correct
rounding. -/
def Dy.sub (x y : Dy) : Dy :=
  let e := min x.e y.e
  dyRound (x.m * 2 ^ (x.e - e).toNat - y.m * 2 ^ (y.e - e).toNat) 1 e

/-- IEEE binary64 multiplication: exact product, then one correct
rounding. -/
def Dy.mul (x y : Dy) : Dy :=
  dyRound (x.m * y.m) 1 (x.e + y.e)

/-- IEEE binary64 division: correctly rounded exact quotient.  A zero
divisor, which in IEEE produces `±inf`/`NaN` (modelled by `EDouble`), is
mapped to `0` here; none of the evaluations below divide by zero. -/
def Dy.div (x y : Dy) : Dy :=
  if y.m = 0 then ⟨0, 0⟩
  else if y.m < 0 then dyRound (-x.m) (-y.m) (x.e - y.e)
  else dyRound x.m y.m (x.e - y.e)

instance : Add Dy := ⟨Dy.add⟩

instance : Sub Dy := ⟨Dy.sub⟩

instance : Mul Dy := ⟨Dy.mul⟩

instance : Div Dy := ⟨Dy.div⟩

instance : NatCast Dy := ⟨fun n => dyRound (n : ℤ) 1 0⟩

instance : OfNat Dy 0 := ⟨⟨0, 0⟩⟩

/-- Exact rational value of a dyadic. -/
def Dy.toRat (x : Dy) : ℚ :=
  if 0 ≤ x.e then (x.m : ℚ) * 2 ^ x.e.toNat else (x.m : ℚ) / 2 ^ (-x.e).toNat

/-- Two points `(1e8, 0)` and `(1e8 + 2, 1)` — both coordinates exactly
representable binary64 values with distinct x coordinates. -/
def dataC2 : List (DataPoint Dy) :=
  [⟨⟨100000000, 0⟩, ⟨0, 0⟩⟩, ⟨⟨100000002, 0⟩, ⟨1, 0⟩⟩]

/-- The binary64 double nearest to `123456789.1`:
`8285044869588582 · 2^−26`, obtained by correctly rounding
`1234567891/10`. -/
def c9x : Dy := dyRound 1234567891 10 0

/-- Three points whose x coordinates are all the same double
`fl(123456789.1)` (equal as binary64 values), with y = 1, 2, 3. -/
def dataC9 : List (DataPoint Dy) := [⟨c9x, ⟨1, 0⟩⟩, ⟨c9x, ⟨2, 0⟩⟩, ⟨c9x, ⟨3, 0⟩⟩]

theorem getSumsAux_spec (data : List (DataPoint ℚ)) : ∀ x y xx xy : ℚ,
    getSumsAux data x y xx xy =
      (x + (data.map DataPoint.x).sum,
       y + (data.map DataPoint.y).sum,
       xx + (data.map (fun p => p.x * p.x)).sum,
       xy + (data.map (fun p => p.x * p.y)).sum) := by
  induction data with
  | nil => intro x y xx xy; simp [getSumsAux]
  | cons p rest ih =>
      intro x y xx xy
      simp [getSumsAux, ih, add_assoc]

theorem getSums_spec (data : List (DataPoint ℚ)) :
    getSums data =
      ((data.map DataPoint.x).sum,
       (data.map DataPoint.y).sum,
       (data.map (fun p => p.x * p.x)).sum,
       (data.map (fun p => p.x * p.y)).sum) := by
  simpa [getSums] using getSumsAux_spec data 0 0 0 0

theorem sum_sub_sq (c : ℚ) (l : List ℚ) :
    (l.map (fun t => (c - t) * (c - t))).sum =
      (l.length : ℚ) * (c * c) - 2 * c * l.sum + (l.map (fun t => t * t)).sum := by
  induction l with
  | nil => simp
  | cons a rest ih =>
      simp only [List.map_cons, List.sum_cons, List.length_cons, ih]
      push_cast
      ring

theorem Dq_nil : Dq [] = 0 := by simp [Dq]

theorem Dq_cons (c : ℚ) (l : List ℚ) :
    Dq (c :: l) = Dq l + (l.map (fun t => (c - t) * (c - t))).sum := by
  simp only [Dq, List.map_cons, List.sum_cons, List.length_cons, sum_sub_sq]
  push_cast
  ring

theorem sq_map_sum_nonneg (c : ℚ) (l : List ℚ) :
    0 ≤ (l.map (fun t => (c - t) * (c - t))).sum := by
  apply List.sum_nonneg
  intro a ha
  obtain ⟨t, _, rfl⟩ := List.mem_map.1 ha
  exact mul_self_nonneg _

theorem Dq_nonneg (l : List ℚ) : 0 ≤ Dq l := by
  induction l with
  | nil => simp [Dq_nil]
  | cons c rest ih =>
      rw [Dq_cons]
      exact add_nonneg ih (sq_map_sum_nonneg c rest)

theorem Dq_pos (l : List ℚ) (a b : ℚ) (ha : a ∈ l) (hb : b ∈ l) (hne : a ≠ b) :
    0 < Dq l := by
  induction l with
  | nil => simp at ha
  | cons c rest ih =>
      rw [Dq_cons]
      rcases List.mem_cons.1 ha with rfl | ha'
      · rcases List.mem_cons.1 hb with rfl | hb'
        · exact absurd rfl hne
        · have hmem : (a - b) * (a - b) ∈ rest.map (fun t => (a - t) * (a - t)) :=
            List.mem_map_of_mem _ hb'
          have hterm : 0 < (a - b) * (a - b) :=
            mul_self_pos.mpr (sub_ne_zero.mpr hne)
          have hle : (a - b) * (a - b) ≤ (rest.map (fun t => (a - t) * (a - t))).sum := by
            apply List.single_le_sum _ _ hmem
            intro q hq
            obtain ⟨t, _, rfl⟩ := List.mem_map.1 hq
            exact mul_self_nonneg _
          have := Dq_nonneg rest
          linarith
      · rcases List.mem_cons.1 hb with rfl | hb'
        · have hmem : (b - a) * (b - a) ∈ rest.map (fun t => (b - t) * (b - t)) :=
            List.mem_map_of_mem _ ha'
          have hterm : 0 < (b - a) * (b - a) :=
            mul_self_pos.mpr (sub_ne_zero.mpr (Ne.symm hne))
          have hle : (b - a) * (b - a) ≤ (rest.map (fun t => (b - t) * (b - t))).sum := by
            apply List.single_le_sum _ _ hmem
            intro q hq
            obtain ⟨t, _, rfl⟩ := List.mem_map.1 hq
            exact mul_self_nonneg _
          have := Dq_nonneg rest
          linarith
        · have := ih ha' hb'
          have := sq_map_sum_nonneg c rest
          linarith

theorem fitDenom_eq_Dq (data : List (DataPoint ℚ)) :
    fitDenom data = Dq (data.map DataPoint.x) := by
  simp only [fitDenom, Dq, getSums_spec, List.map_map, List.length_map, Function.comp_def]

theorem scanList_append (a b : List Char) : ∀ s : ScanState,
    scanList s (a ++ b) =
      match scanList s a with
      | none => none
      | some t => scanList t b := by
  induction a with
  | nil => intro s; simp [scanList]
  | cons c cs ih =>
      intro s
      simp only [List.cons_append, scanList]
      cases scanStep s c with
      | none => rfl
      | some s' => exact ih s'

theorem scanList_replicate_abort (c : Char) (hc : isDigitClass c = true) :
    ∀ (k : ℕ) (s : ScanState), 1 ≤ k → 258 ≤ k + s.accum.length →
      scanList s (List.replicate k c) = none := by
  intro k
  induction k with
  | zero => intro s h1 _; omega
  | succ k ih =>
      intro s _ hlen
      rw [List.replicate_succ]
      simp only [scanList, scanStep, hc, if_pos]
      by_cases hover : s.accum.length > 256
      · rw [if_pos hover]
      · rw [if_neg hover]
        have hk : 1 ≤ k := by omega
        have : 258 ≤ k + (s.accum ++ [c]).length := by
          simp only [List.length_append, List.length_cons, List.length_nil]
          omega
        exact ih _ hk this

theorem scanInv_init : ScanInv initState := by
  constructor <;> simp [initState]

theorem scanStep_inv (s : ScanState) (c : Char) (t : ScanState)
    (hs : ScanInv s) (h : scanStep s c = some t) : ScanInv t := by
  obtain ⟨h1, h2⟩ := hs
  unfold scanStep at h
  by_cases hc : isDigitClass c
  · simp only [hc, if_pos] at h
    by_cases hover : s.accum.length > 256
    · simp [hover] at h
    · simp only [hover, if_neg, if_false] at h
      cases h
      exact ⟨h1, h2⟩
  · simp only [hc, Bool.false_eq_true, if_false] at h
    by_cases hxy : s.xy
    · simp only [hxy, if_pos] at h
      cases h
      constructor
      · simp [h1]
      · simpa [hxy] using h2
    · simp only [hxy, Bool.false_eq_true, if_false] at h
      cases h
      constructor
      · simpa using h1
      · simpa [hxy] using h2

theorem scanList_inv (cs : List Char) : ∀ s t : ScanState,
    ScanInv s → scanList s cs = some t → ScanInv t := by
  induction cs with
  | nil =>
      intro s t hs h
      simp only [scanList, Option.some.injEq] at h
      cases h
      exact hs
  | cons c rest ih =>
      intro s t hs h
      simp only [scanList] at h
      cases hstep : scanStep s c with
      | none => rw [hstep] at h; cases h
      | some s' =>
          rw [hstep] at h
          exact ih s' t (scanStep_inv s c s' hs hstep) h

theorem range_map_getD_zipWith : ∀ (b a : List ℚ), b.length ≤ a.length →
    (List.range b.length).map (fun i => (⟨a.getD i 0, b.getD i 0⟩ : DataPoint ℚ)) =
      List.zipWith DataPoint.mk a b := by
  intro b
  induction b with
  | nil => intro a _; simp
  | cons y ys ih =>
      intro a hlen
      cases a with
      | nil => simp at hlen
      | cons x xs =>
          simp only [List.length_cons, List.range_succ_eq_map, List.map_cons,
            List.map_map, List.zipWith_cons_cons, Function.comp_def,
            List.getD_cons_zero, List.getD_cons_succ]
          exact congrArg _ (ih xs (by simpa using hlen))

theorem buildPairs_eq_zipWith (s : ScanState) (hs : ScanInv s) :
    buildPairs s = List.zipWith DataPoint.mk s.xs s.ys := by
  obtain ⟨h1, h2⟩ := hs
  have hle : s.ys.length ≤ s.xs.length := by
    rcases Bool.eq_false_or_eq_true s.xy with hxy | hxy <;> simp [hxy] at h2 <;> omega
  rw [buildPairs, h1]
  exact range_map_getD_zipWith s.ys s.xs hle

theorem EDouble.fin_add (a b : ℚ) : EDouble.fin a + EDouble.fin b = EDouble.fin (a + b) := rfl

theorem EDouble.fin_sub (a b : ℚ) : EDouble.fin a - EDouble.fin b = EDouble.fin (a - b) := rfl

theorem EDouble.fin_mul (a b : ℚ) : EDouble.fin a * EDouble.fin b = EDouble.fin (a * b) := rfl

theorem EDouble.natCast_fin (n : ℕ) : (n : EDouble) = EDouble.fin n := rfl

theorem EDouble.zero_fin : (0 : EDouble) = EDouble.fin 0 := rfl

theorem EDouble.zero_div_zero : EDouble.fin 0 / EDouble.fin 0 = EDouble.nan := by
  simp [HDiv.hDiv, Div.div, EDouble.div]

theorem EDouble.mul_nan (a : EDouble) : a * EDouble.nan = EDouble.nan := by
  cases a <;> rfl

theorem EDouble.nan_mul (a : EDouble) : EDouble.nan * a = EDouble.nan := by
  cases a <;> rfl

theorem EDouble.sub_nan (a : EDouble) : a - EDouble.nan = EDouble.nan := by
  cases a <;> rfl

theorem EDouble.nan_div (a : EDouble) : EDouble.nan / a = EDouble.nan := by
  cases a <;> rfl

theorem getSumsAux_injP (data : List (DataPoint ℚ)) : ∀ x y xx xy : ℚ,
    getSumsAux (data.map injP) (.fin x) (.fin y) (.fin xx) (.fin xy) =
      ((.fin (getSumsAux data x y xx xy).1 : EDouble),
       (.fin (getSumsAux data x y xx xy).2.1 : EDouble),
       (.fin (getSumsAux data x y xx xy).2.2.1 : EDouble),
       (.fin (getSumsAux data x y xx xy).2.2.2 : EDouble)) := by
  induction data with
  | nil => intro x y xx xy; simp [getSumsAux]
  | cons p rest ih =>
      intro x y xx xy
      simpa [getSumsAux, injP, EDouble.fin_add, EDouble.fin_mul] using
        ih (x + p.x) (y + p.y) (xx + p.x * p.x) (xy + p.x * p.y)

theorem getSums_injP (data : List (DataPoint ℚ)) :
    getSums (data.map injP) =
      ((.fin (getSums data).1 : EDouble),
       (.fin (getSums data).2.1 : EDouble),
       (.fin (getSums data).2.2.1 : EDouble),
       (.fin (getSums data).2.2.2 : EDouble)) := by
  simpa [getSums, EDouble.zero_fin] using getSumsAux_injP data 0 0 0 0

theorem map_x_sum_const (data : List (DataPoint ℚ)) (c : ℚ)
    (h : ∀ p ∈ data, p.x = c) :
    (data.map DataPoint.x).sum = (data.length : ℚ) * c := by
  induction data with
  | nil => simp
  | cons p rest ih =>
      have hp := h p (List.mem_cons_self p rest)
      have hr := ih (fun q hq => h q (List.mem_cons_of_mem p hq))
      simp only [List.map_cons, List.sum_cons, List.length_cons, hp, hr]
      push_cast
      ring

theorem map_xx_sum_const (data : List (DataPoint ℚ)) (c : ℚ)
    (h : ∀ p ∈ data, p.x = c) :
    (data.map (fun p => p.x * p.x)).sum = (data.length : ℚ) * (c * c) := by
  induction data with
  | nil => simp
  | cons p rest ih =>
      have hp := h p (List.mem_cons_self p rest)
      have hr := ih (fun q hq => h q (List.mem_cons_of_mem p hq))
      simp only [List.map_cons, List.sum_cons, List.length_cons, hp, hr]
      push_cast
      ring

theorem map_xy_sum_const (data : List (DataPoint ℚ)) (c : ℚ)
    (h : ∀ p ∈ data, p.x = c) :
    (data.map (fun p => p.x * p.y)).sum = c * (data.map DataPoint.y).sum := by
  induction data with
  | nil => simp
  | cons p rest ih =>
      have hp := h p (List.mem_cons_self p rest)
      have hr := ih (fun q hq => h q (List.mem_cons_of_mem p hq))
      simp only [List.map_cons, List.sum_cons, hp, hr]
      ring

theorem denom_sums (data : List (DataPoint ℚ)) :
    Dq (data.map DataPoint.x) =
      (data.length : ℚ) * (data.map (fun p => p.x * p.x)).sum -
        (data.map DataPoint.x).sum * (data.map DataPoint.x).sum := by
  simp only [Dq, List.map_map, List.length_map, Function.comp_def]

/-- C1: for every point sequence of length `N ≥ 1`, `getBestFit` returns
exactly the values of the spec's closed-form equations computed from the
sums of `getSums` — `m = (N·Σxy − Σx·Σy) / (N·Σx² − (Σx)²)` first, then
`b = (Σy − m·Σx) / N` using that `m`.  The statement is proved over an
arbitrary carrier of the arithmetic operations with no algebraic laws
assumed, so the equality holds under any interpretation of `+`, `-`, `*`,
`/` — in particular under IEEE double-precision evaluation. -/
theorem claim1_getBestFit_matches_spec {α : Type} [Add α] [Sub α] [Mul α] [Div α]
    [NatCast α] [OfNat α 0] (data : List (DataPoint α)) (_h : 1 ≤ data.length) :
    getBestFit data = specBestFit data := rfl

/-- Witness for C1: the two-point sequence ((1,2),(3,4)) over `ℚ` has
length at least 1, the theorem applies, and both sides evaluate to
`(b, m) = (1, 1)`. -/
theorem claim1_witness :
    getBestFit (α := ℚ) [⟨1, 2⟩, ⟨3, 4⟩] = specBestFit [⟨1, 2⟩, ⟨3, 4⟩] ∧
      getBestFit (α := ℚ) [⟨1, 2⟩, ⟨3, 4⟩] = (1, 1) :=
  ⟨claim1_getBestFit_matches_spec [⟨1, 2⟩, ⟨3, 4⟩] (by decide),
    by norm_num [getBestFit, getSums, getSumsAux]⟩

/-- C2 (amended): over exact arithmetic the two solver formulations
coincide identically on every point sequence in which not all x values
are equal: `getLeastSquares`' pair `(a, b)` equals `getBestFit`'s pair
`(b, m)` as exact rationals.  Under IEEE binary64 rounding the agreement
is only approximate and can exceed the 1e-9 relative tolerance stated by
the original claim — see the counterexample over the `Dy` rounding
model. -/
theorem claim2_leastSquares_agrees_bestFit (data : List (DataPoint ℚ))
    (h : ∃ p ∈ data, ∃ q ∈ data, p.x ≠ q.x) :
    getLeastSquares data = getBestFit data := by
  obtain ⟨p, hp, q, hq, hne⟩ := h
  have hD : 0 < Dq (data.map DataPoint.x) :=
    Dq_pos _ p.x q.x (List.mem_map_of_mem _ hp) (List.mem_map_of_mem _ hq) hne
  have hlen : 0 < data.length := List.length_pos.mpr (by rintro rfl; simp at hp)
  have hn : (data.length : ℚ) ≠ 0 := by
    exact_mod_cast Nat.pos_iff_ne_zero.mp hlen
  have hden : (data.length : ℚ) * (data.map (fun p => p.x * p.x)).sum -
      (data.map DataPoint.x).sum * (data.map DataPoint.x).sum ≠ 0 := by
    rw [← denom_sums]
    exact ne_of_gt hD
  simp only [getLeastSquares, getBestFit, getSums_spec]
  refine Prod.ext ?_ rfl
  field_simp
  ring

/-- Witness for C2: the sequence ((0,0),(1,1)) has two distinct x values,
and both solvers return the pair `(0, 1)` (intercept 0, slope 1). -/
theorem claim2_witness :
    getLeastSquares [(⟨0, 0⟩ : DataPoint ℚ), ⟨1, 1⟩] = getBestFit [⟨0, 0⟩, ⟨1, 1⟩] ∧
      getBestFit (α := ℚ) [⟨0, 0⟩, ⟨1, 1⟩] = (0, 1) :=
  ⟨claim2_leastSquares_agrees_bestFit [⟨0, 0⟩, ⟨1, 1⟩]
      ⟨⟨0, 0⟩, by simp, ⟨1, 1⟩, by simp, by norm_num⟩,
    by norm_num [getBestFit, getSums, getSumsAux]⟩

/-- C2 counterexample: in the binary64 rounding model, on the two-point
sequence `((1e8, 0), (1e8 + 2, 1))` — whose x values differ —
`getLeastSquares` returns intercept `-25000000` while `getBestFit`
returns intercept `-24999999.75` (the slopes agree at `0.25`): the lone
rounding in the computation, `fl(200000002 * 200000002)`, makes the
computed denominator `8` where the exact value is `4`, and the two
algebraically equivalent intercept routes diverge by `0.25`, a relative
disagreement of about `1e-8` — ten times the claimed `1e-9` tolerance. -/
theorem claim2_counterexample :
    |(getLeastSquares dataC2).1.toRat - (getBestFit dataC2).1.toRat| >
      (1 / 1000000000) * |(getBestFit dataC2).1.toRat| := by
  have h1 : getLeastSquares dataC2 =
      (⟨-6710886400000000, -28⟩, ⟨4503599627370496, -54⟩) := by decide
  have h2 : getBestFit dataC2 =
      (⟨-6710886332891136, -28⟩, ⟨4503599627370496, -54⟩) := by decide
  rw [h1, h2]
  show |Dy.toRat ⟨-6710886400000000, -28⟩ - Dy.toRat ⟨-6710886332891136, -28⟩| >
    (1 / 1000000000) * |Dy.toRat ⟨-6710886332891136, -28⟩|
  rw [show Dy.toRat ⟨-6710886400000000, -28⟩ = -(25000000 : ℚ) by
        norm_num [Dy.toRat, show ((28 : ℤ)).toNat = 28 from rfl],
      show Dy.toRat ⟨-6710886332891136, -28⟩ = -(99999999 / 4 : ℚ) by
        norm_num [Dy.toRat, show ((28 : ℤ)).toNat = 28 from rfl]]
  rw [show (-(25000000 : ℚ) - -(99999999 / 4)) = -(1 / 4) by norm_num,
      abs_neg, abs_neg, abs_of_pos (by norm_num : (0 : ℚ) < 1 / 4),
      abs_of_pos (by norm_num : (0 : ℚ) < 99999999 / 4)]
  norm_num

/-- C3: for every point sequence, `getSums` produces exactly the four sums
`(Σx, Σy, Σx², Σxy)` of the sequence; in particular for the empty sequence
all four outputs are 0. -/
theorem claim3_getSums_exact :
    (∀ data : List (DataPoint ℚ),
        getSums data =
          ((data.map DataPoint.x).sum,
           (data.map DataPoint.y).sum,
           (data.map (fun p => p.x * p.x)).sum,
           (data.map (fun p => p.x * p.y)).sum)) ∧
      getSums ([] : List (DataPoint ℚ)) = (0, 0, 0, 0) :=
  ⟨getSums_spec, rfl⟩

/-- C4 counterexample: on the input `"43,99\n21,65\n25,79"` the scanner
does not produce the claimed three-point sequence `[(43,99),(21,65),(25,79)]`,
because nothing is emitted when the end of the stream is reached: the final
token `79` is still in the accumulator when the loop exits. -/
theorem claim4_counterexample :
    parseFile c4Input ≠ some [⟨43, 99⟩, ⟨21, 65⟩, ⟨25, 79⟩] := by
  simp +decide [c4Input, parseFile, scanRun, scanList, scanStep, initState, buildPairs,
    parseDouble, digitsToNat, isDigitClass]

/-- C4 (amended): the scanner emits the accumulated token only upon a
separator character, never at end of stream; on the input
`"43,99\n21,65\n25,79"` it therefore produces only the two complete pairs
`[(43,99),(21,65)]` — `25` remains an unmatched x emission and the final
token `79` is never emitted at all. -/
theorem claim4_amended_no_eof_emission :
    parseFile c4Input = some [⟨43, 99⟩, ⟨21, 65⟩] := by
  simp +decide [c4Input, parseFile, scanRun, scanList, scanStep, initState, buildPairs,
    parseDouble, digitsToNat, isDigitClass]

/-- C5 counterexample: consecutive separators are not equivalent to a
single separator.  On `"1,,2,"` the empty accumulator at the second comma
is still "emitted": `sscanf` fails, `d` keeps its previous value `1`, and
that stale value is pushed as the y coordinate, giving `[(1,1)]`; the
single-separator variant `"1,2,"` gives `[(1,2)]`. -/
theorem claim5_counterexample :
    parseFile ['1', ',', ',', '2', ','] = some [⟨1, 1⟩] ∧
      parseFile ['1', ',', '2', ','] = some [⟨1, 2⟩] ∧
      parseFile ['1', ',', ',', '2', ','] ≠ parseFile ['1', ',', '2', ','] := by
  refine ⟨?_, ?_, ?_⟩ <;>
    simp +decide [parseFile, scanRun, scanList, scanStep, initState, buildPairs,
      parseDouble, digitsToNat, isDigitClass]

/-- C5 (amended): every separator character emits a value and toggles the
x/y alternation, even when the accumulator is empty (the emitted value is
then the stale `d`, initially `0.0`): after any separator step the total
number of emitted values grows by exactly one and the toggle flips. -/
theorem claim5_amended_separator_always_emits (s : ScanState) (c : Char)
    (h : isDigitClass c = false) :
    (scanStep s c).map (fun t => (t.xs.length + t.ys.length, t.xy)) =
      some (s.xs.length + s.ys.length + 1, !s.xy) := by
  simp only [scanStep, h, Bool.false_eq_true, if_false]
  by_cases hxy : s.xy
  · simp [hxy]
    omega
  · simp [hxy]
    omega

/-- Witness for C5 (amended) at the initial state and the separator `,`:
one value is emitted and the toggle flips. -/
theorem claim5_witness :
    (scanStep initState ',').map (fun t => (t.xs.length + t.ys.length, t.xy)) =
      some (initState.xs.length + initState.ys.length + 1, !initState.xy) :=
  claim5_amended_separator_always_emits initState ',' (by decide)

/-- C6 (amended): a point is counted toward the returned sequence only
when both an x value push and a y value push exist for it — where, per
the corrected C5, a value is pushed on every separator character, even
for an empty token (the stale `d` is then pushed), so a push need not
correspond to an emitted numeric token.  For every accepted input the
returned array is exactly the pairing of the i-th x push with the i-th
y push; a trailing unmatched x push (and any token still in the
accumulator) is dropped silently, and `"1,2,3"` yields `[(1,2)]`. -/
theorem claim6_only_complete_pairs (input : List Char) (s : ScanState)
    (h : scanRun input = some s) :
    parseFile input = some (List.zipWith DataPoint.mk s.xs s.ys) := by
  have inv : ScanInv s := scanList_inv input initState s scanInv_init h
  rw [parseFile, h, Option.map_some', buildPairs_eq_zipWith s inv]

/-- Witness for C6: the input `"1,2,3"` scans to the final state with
`xs = [1]`, `ys = [2]` and the unmatched trailing token `3` still in the
accumulator, and the theorem yields the one-point sequence `[(1,2)]`. -/
theorem claim6_witness :
    parseFile ['1', ',', '2', ',', '3'] = some [⟨1, 2⟩] := by
  have hrun : scanRun ['1', ',', '2', ',', '3'] =
      some ⟨[1], [2], 1, false, ['3'], 2, [0, 1, 0, 1, 0]⟩ := by
    simp +decide [scanRun, scanList, scanStep, initState, parseDouble,
      digitsToNat, isDigitClass]
  have h := claim6_only_complete_pairs _ _ hrun
  simpa using h

/-- C6 counterexample: on the input `"1,,"` the only numeric token ever
accumulated is the single `1`, yet the returned sequence contains the
complete pair `(1,1)`: the second comma finds an empty accumulator and
still pushes the stale `d = 1` as a y value (the C5 bug), so a point is
counted although no y token was ever emitted — whereas under the original
claim the lone x would have been dropped and the result would be empty. -/
theorem claim6_counterexample :
    parseFile ['1', ',', ','] = some [⟨1, 1⟩] ∧
      parseFile ['1', ',', ','] ≠ some [] := by
  constructor <;>
    simp +decide [parseFile, scanRun, scanList, scanStep, initState, buildPairs,
      parseDouble, digitsToNat, isDigitClass]

theorem scanList_replicate_digit (c : Char) (hc : isDigitClass c = true) :
    ∀ (k : ℕ) (s : ScanState), k + s.accum.length ≤ 257 →
      scanList s (List.replicate k c) = some { s with
        accum := s.accum ++ List.replicate k c,
        writes := s.writes ++ (List.range k).map (fun i => s.accum.length + i) } := by
  intro k
  induction k with
  | zero =>
      intro s _
      simp [scanList]
  | succ k ih =>
      intro s hlen
      have hnov : ¬ s.accum.length > 256 := by omega
      rw [List.replicate_succ]
      simp only [scanList, scanStep, hc, if_true, hnov, if_false]
      rw [ih _ (by simp; omega)]
      have hfun : (fun i => s.accum.length + 1 + i) = (fun i => s.accum.length + (i + 1)) := by
        funext i
        omega
      simp [List.range_succ_eq_map, List.map_map, Function.comp_def, hfun,
        List.append_assoc, List.replicate_succ]

/-- C7 counterexample: a token of 257 consecutive digit characters exceeds
the 256-byte buffer, yet `parseFile` does not abort: the overflow check
`aidx > MAX_DIGITS` only fires at `aidx = 257`, i.e. at the 258th
character of a token, so the scan completes and a (tuple-less) sequence is
returned instead of `NULL`. -/
theorem claim7_counterexample :
    parseFile (List.replicate 257 '1') ≠ none := by
  rw [parseFile, scanRun,
    scanList_replicate_digit '1' (by decide) 257 initState (by simp [initState])]
  simp

/-- C7 (amended): the abort really happens two characters late: whenever a
token accumulates 258 digit-class characters the scan aborts and
`parseFile` returns `NULL` (discarding all partial results), wherever the
run occurs in the stream; but a token of up to 257 characters is emitted
normally even though the buffer holds only 256 bytes (see C10). -/
theorem claim7_amended_overflow_abort (pre post : List Char) (c : Char)
    (h : isDigitClass c = true) :
    parseFile (pre ++ List.replicate 258 c ++ post) = none := by
  have habort : scanList initState (pre ++ List.replicate 258 c ++ post) = none := by
    rw [List.append_assoc, scanList_append]
    cases hpre : scanList initState pre with
    | none => rfl
    | some t =>
        show scanList t (List.replicate 258 c ++ post) = none
        rw [scanList_append,
          scanList_replicate_abort c h 258 t (by omega) (by omega)]
  rw [parseFile, scanRun, habort]
  rfl

/-- Witness for C7 (amended): a stream consisting of 258 consecutive `1`
characters is rejected with `NULL`. -/
theorem claim7_witness :
    parseFile (([] : List Char) ++ List.replicate 258 '1' ++ []) = none :=
  claim7_amended_overflow_abort [] [] '1' (by decide)

/-- C8 counterexample: the invocation `prog 1 2` supplies one coordinate
pair (two numeric arguments, fewer than the claimed minimum of four) and
no file flag, yet the program does not print usage and exit 1: `argc = 3`
fails the `argc > 2` test's else-branch, so execution falls through to the
regression computation on the single pair `(1,2)`. -/
theorem claim8_counterexample :
    mainModel 0 none [['1'], ['2']] ≠ MainResult.usage := by
  simp +decide [mainModel, mainCont, cliData, parseDouble, digitsToNat,
    getBestFit, getSums, getSumsAux, getMean, getMeanAux]

theorem mainCont_ne_usage (v0 : ℚ) (args : List (List Char))
    (data : Option (List (DataPoint ℚ))) : mainCont v0 args data ≠ MainResult.usage := by
  simp [mainCont]

/-- C8 (amended): the usage text with exit status 1 is produced exactly
when the program receives fewer than two command-line arguments
(`argc ≤ 2`); with two or more arguments `main` never takes the usage
path — with no recognized file flag it proceeds to compute on
`(argc − 1) / 2` pairs, however few. -/
theorem claim8_amended_usage_iff_argc_small :
    (∀ (v0 : ℚ) (fc : Option (List Char)) (args : List (List Char)),
        args.length < 2 → mainModel v0 fc args = MainResult.usage) ∧
      (∀ (v0 : ℚ) (fc : Option (List Char)) (args : List (List Char)),
        2 ≤ args.length → mainModel v0 fc args ≠ MainResult.usage) := by
  constructor
  · intro v0 fc args h
    have h5 : args.length + 1 < 5 := by omega
    have h2 : ¬ args.length + 1 > 2 := by omega
    simp only [mainModel]
    rw [if_pos h5, if_neg h2]
  · intro v0 fc args h
    have h2 : args.length + 1 > 2 := by omega
    simp only [mainModel]
    by_cases h5 : args.length + 1 < 5
    · rw [if_pos h5, if_pos h2]
      by_cases hflag : args.headD [] = "-f".toList ∨ args.headD [] = "-xf".toList
      · rw [if_pos hflag]
        cases hfc : fc.bind parseFile with
        | none => simp [hfc]
        | some data0 => simp [hfc, mainCont_ne_usage]
      · rw [if_neg hflag]
        exact mainCont_ne_usage _ _ _
    · rw [if_neg h5]
      exact mainCont_ne_usage _ _ _

/-- Witness for C8 (amended): with no arguments at all the model takes the
usage path, and with the two arguments `1 2` it does not. -/
theorem claim8_witness :
    mainModel 0 none [] = MainResult.usage :=
  claim8_amended_usage_iff_argc_small.1 0 none [] (by decide)

/-- C9 (amended): when the `double` arithmetic incurs no rounding — in
particular whenever every sum and product of the coordinates is exactly
representable, as in the spec's small-integer example `(5,1),(5,2)` — an
all-equal-x sequence of length at least 2 drives the solver denominator
`N·Σx² − (Σx)²` to exactly 0, and every component returned by
`getBestFit` and by `getLeastSquares` is an IEEE special value (in fact
`NaN`, since the numerators cancel to exactly 0 as well); the functions
are total, so no exception or crash occurs.  This is proved over the
exact-arithmetic carrier `EDouble`; under IEEE rounding the cancellation
can fail and the denominator come out nonzero with ordinary finite
results — see the counterexample over the `Dy` rounding model. -/
theorem claim9_zero_denominator_specials (data : List (DataPoint ℚ))
    (hlen : 2 ≤ data.length) (hx : ∀ p ∈ data, ∀ q ∈ data, p.x = q.x) :
    fitDenom (data.map injP) = EDouble.fin 0 ∧
      isSpecial (getBestFit (data.map injP)).1 ∧
      isSpecial (getBestFit (data.map injP)).2 ∧
      isSpecial (getLeastSquares (data.map injP)).1 ∧
      isSpecial (getLeastSquares (data.map injP)).2 := by
  obtain ⟨p0, hp0⟩ : ∃ p, p ∈ data := by
    cases data with
    | nil => simp at hlen
    | cons p rest => exact ⟨p, List.mem_cons_self p rest⟩
  have hxc : ∀ p ∈ data, p.x = p0.x := fun p hp => hx p hp p0 hp0
  have hsums : getSums (data.map injP) =
      (EDouble.fin ((data.length : ℚ) * p0.x),
       EDouble.fin ((data.map DataPoint.y).sum),
       EDouble.fin ((data.length : ℚ) * (p0.x * p0.x)),
       EDouble.fin (p0.x * (data.map DataPoint.y).sum)) := by
    rw [getSums_injP, getSums_spec]
    simp only [map_x_sum_const data p0.x hxc, map_xx_sum_const data p0.x hxc,
      map_xy_sum_const data p0.x hxc]
  have hden : fitDenom (data.map injP) = EDouble.fin 0 := by
    simp only [fitDenom, hsums, List.length_map, EDouble.natCast_fin,
      EDouble.fin_mul, EDouble.fin_sub]
    congr 1
    ring
  have hbf : getBestFit (data.map injP) = (EDouble.nan, EDouble.nan) := by
    simp only [getBestFit, hsums, List.length_map, EDouble.natCast_fin,
      EDouble.fin_mul, EDouble.fin_sub]
    ring_nf
    simp [EDouble.zero_div_zero, EDouble.nan_mul, EDouble.sub_nan, EDouble.nan_div]
  have hls : getLeastSquares (data.map injP) = (EDouble.nan, EDouble.nan) := by
    simp only [getLeastSquares, hsums, List.length_map, EDouble.natCast_fin,
      EDouble.fin_mul, EDouble.fin_sub]
    ring_nf
    simp [EDouble.zero_div_zero]
  refine ⟨hden, ?_, ?_, ?_, ?_⟩ <;> simp [hbf, hls, isSpecial]

/-- Witness for C9: on the spec's example `{(5,1),(5,2)}` the denominator
is exactly 0 and all four solver outputs are special values. -/
theorem claim9_witness :
    fitDenom ([(⟨5, 1⟩ : DataPoint ℚ), ⟨5, 2⟩].map injP) = EDouble.fin 0 ∧
      isSpecial (getBestFit ([(⟨5, 1⟩ : DataPoint ℚ), ⟨5, 2⟩].map injP)).1 ∧
      isSpecial (getBestFit ([(⟨5, 1⟩ : DataPoint ℚ), ⟨5, 2⟩].map injP)).2 ∧
      isSpecial (getLeastSquares ([(⟨5, 1⟩ : DataPoint ℚ), ⟨5, 2⟩].map injP)).1 ∧
      isSpecial (getLeastSquares ([(⟨5, 1⟩ : DataPoint ℚ), ⟨5, 2⟩].map injP)).2 :=
  claim9_zero_denominator_specials [⟨5, 1⟩, ⟨5, 2⟩] (by decide)
    (by intro p hp q hq; fin_cases hp <;> fin_cases hq <;> rfl)

/-- C9 counterexample: rounding can defeat the cancellation.  Take three
points whose x coordinates are all the same double `fl(123456789.1)`
(i.e. `8285044869588582 · 2^−26` — equal as binary64 values, so this is
an all-equal-x sequence of length 3).  In the binary64 rounding model the
computed denominator `3·Σx² − (Σx)²` is `16`, not `0`: `Σx` and `Σx²`
are each rounded, and the two rounded products no longer cancel.  The
division by `16` then yields ordinary finite values, not `NaN`/`±Inf`. -/
theorem claim9_counterexample :
    (fitDenom dataC9).toRat = 16 ∧ (fitDenom dataC9).toRat ≠ 0 := by
  have h : fitDenom dataC9 = ⟨4503599627370496, -48⟩ := by decide
  rw [h]
  constructor <;> norm_num [Dy.toRat, show ((48 : ℤ)).toNat = 48 from rfl]

/-- C10: the overflow check does not fire before an out-of-bounds index is
written: on a token of 257 digit characters the scan completes and its
write trace contains the index 256, one past the last valid index of the
256-byte buffer `accum` — i.e. the character store `accum[aidx++] = c` is
executed with `aidx = 256`. -/
theorem claim10_out_of_bounds_write :
    256 ∈ scanWrites (List.replicate 257 '1') := by
  rw [scanWrites, scanRun,
    scanList_replicate_digit '1' (by decide) 257 initState (by simp [initState])]
  simp [initState, List.mem_range]
